import Mathlib

/-!
Verification of the classroom-toolkit roster store and roster tools.

The embedding follows `src/student_manager.py` and `src/classroom_tools.py`:

* Python dicts (`_sections`, `_students`, `_section_roster_index`) become
  functions `String → Option _`; `Set[str]` buckets become duplicate-free
  `List String` (insertion = append-if-absent, `discard` = filter).
* Python exceptions become an `Except SMError` result.  Because a Python
  method can mutate `self` and then raise, every mutating operation returns
  the state it leaves behind *together with* the outcome
  (`StoreState × Except SMError α`), so partial mutations made before a
  raise stay visible, exactly as in CPython.
* `uuid.uuid4()` is modelled by an explicit `genId` argument (the id the
  generator would produce); `random.choice` by an index argument;
  `random.shuffle` by an explicit permutation function argument.
* The CSV text is modelled after `csv.DictReader` at the row level: a
  header (list of column names) and data rows (lists of cell strings);
  a row dict is `dict(zip(fieldnames, row))`, where a later duplicate
  column overwrites an earlier one.
-/

namespace Classroom

/-- Errors of the store and tools layer.  `DuplicateStudentIdE`,
`SectionNotFoundE`, `StudentNotFoundE` model the exception classes of
`student_manager.py`; `InvalidArgument` models Python `ValueError`
(bad `group_size`, malformed CSV header); `KeyError` models a raw
dictionary/attribute failure on a missing key (never reached from
well-formed states). -/
inductive SMError where
  | DuplicateStudentIdE
  | SectionNotFoundE
  | StudentNotFoundE
  | InvalidArgument
  | KeyError
deriving DecidableEq, Repr

/-- `Student` dataclass: name, student_id, section_id. -/
structure Student where
  name : String
  student_id : String
  section_id : String
deriving DecidableEq, Repr

/-- `Section` dataclass: section_id and human-readable name. -/
structure Section where
  section_id : String
  name : String
deriving DecidableEq, Repr

/-- The `StudentManager` state: `_sections`, `_students` and the
`_section_roster_index` (section_id → set of student_ids). -/
structure StoreState where
  sections : String → Option Section
  students : String → Option Student
  sectionRosterIndex : String → Option (List String)

/-- Point update of a string-keyed map (dict assignment / deletion). -/
def upd {α : Type} (m : String → Option α) (k : String) (v : Option α) :
    String → Option α :=
  fun x => if x = k then v else m x

/-- Python `set.add`: insert the element if absent. -/
def setAdd (l : List String) (x : String) : List String :=
  if x ∈ l then l else l ++ [x]

/-- Python `set.discard`: remove the element (all copies). -/
def setDiscard (l : List String) (x : String) : List String :=
  l.filter (fun y => y ≠ x)

/-- The freshly constructed `StudentManager()`: all three dicts empty. -/
def emptyStore : StoreState :=
  { sections := fun _ => none
    students := fun _ => none
    sectionRosterIndex := fun _ => none }

/-- `StudentManager.add_section`: create the section (with an empty index
bucket) if absent, else overwrite its name.  Never fails. -/
def add_section (st : StoreState) (section_id name : String) :
    StoreState × Section :=
  match st.sections section_id with
  | some sec =>
      let sec2 : Section := { sec with name := name }
      ({ st with sections := upd st.sections section_id (some sec2) }, sec2)
  | none =>
      let sec : Section := { section_id := section_id, name := name }
      ({ st with
          sections := upd st.sections section_id (some sec)
          sectionRosterIndex := upd st.sectionRosterIndex section_id (some []) },
        sec)

/-- `StudentManager.get_section`: plain lookup, no error on miss. -/
def get_section (st : StoreState) (section_id : String) : Option Section :=
  st.sections section_id

/-- `StudentManager.add_student`.  `student_id` optional; when omitted the
uuid the generator would produce is `genId`.  Fails with
`DuplicateStudentIdE` if the id exists; auto-creates the section (named
after its id) if missing; then inserts the student record and adds the id
to the section's index bucket. -/
def add_student (st : StoreState) (name section_id : String)
    (student_id : Option String) (genId : String) :
    StoreState × Except SMError Student :=
  let sid := student_id.getD genId
  match st.students sid with
  | some _ => (st, .error .DuplicateStudentIdE)
  | none =>
    let st1 :=
      match st.sections section_id with
      | some _ => st
      | none => (add_section st section_id section_id).1
    let new_student : Student :=
      { name := name, student_id := sid, section_id := section_id }
    let st2 := { st1 with students := upd st1.students sid (some new_student) }
    match st2.sectionRosterIndex section_id with
    | none => (st2, .error .KeyError)
    | some bucket =>
        ({ st2 with
            sectionRosterIndex :=
              upd st2.sectionRosterIndex section_id (some (setAdd bucket sid)) },
          .ok new_student)

/-- `StudentManager.remove_student`: fails with `StudentNotFoundE` if the
student is absent; otherwise discards the id from its section's bucket
(when that bucket exists) and deletes the record. -/
def remove_student (st : StoreState) (student_id : String) :
    StoreState × Except SMError Unit :=
  match st.students student_id with
  | none => (st, .error .StudentNotFoundE)
  | some student =>
    let st1 :=
      match st.sectionRosterIndex student.section_id with
      | some bucket =>
          { st with
              sectionRosterIndex :=
                upd st.sectionRosterIndex student.section_id
                  (some (setDiscard bucket student_id)) }
      | none => st
    ({ st1 with students := upd st1.students student_id none }, .ok ())

/-- `StudentManager.update_student`: fails with `StudentNotFoundE` if
absent.  The name update is applied first and unconditionally; a section
move to a non-existent section then fails with `SectionNotFoundE`
*without rolling the name back*.  A move to an existing, different
section discards the id from the old bucket, updates the record, and adds
the id to the new bucket. -/
def update_student (st : StoreState) (student_id : String)
    (name : Option String) (section_id : Option String) :
    StoreState × Except SMError Student :=
  match st.students student_id with
  | none => (st, .error .StudentNotFoundE)
  | some student0 =>
    let student1 :=
      match name with
      | some n => { student0 with name := n }
      | none => student0
    let st1 := { st with students := upd st.students student_id (some student1) }
    match section_id with
    | none => (st1, .ok student1)
    | some sec =>
      if sec = student1.section_id then (st1, .ok student1)
      else
        match st1.sections sec with
        | none => (st1, .error .SectionNotFoundE)
        | some _ =>
          match st1.sectionRosterIndex student1.section_id with
          | none => (st1, .error .KeyError)
          | some oldBucket =>
            let st2 :=
              { st1 with
                  sectionRosterIndex :=
                    upd st1.sectionRosterIndex student1.section_id
                      (some (setDiscard oldBucket student_id)) }
            let student2 := { student1 with section_id := sec }
            let st3 :=
              { st2 with students := upd st2.students student_id (some student2) }
            match st3.sectionRosterIndex sec with
            | none => (st3, .error .KeyError)
            | some newBucket =>
                ({ st3 with
                    sectionRosterIndex :=
                      upd st3.sectionRosterIndex sec
                        (some (setAdd newBucket student_id)) },
                  .ok student2)

/-- `StudentManager.get_students_by_section`: fails with
`SectionNotFoundE` if the section was never created; otherwise resolves
the ids of the section's bucket (`.get(section_id, set())`) through the
primary student map.  Pure read, so no state is returned. -/
def get_students_by_section (st : StoreState) (section_id : String) :
    Except SMError (List Student) :=
  match st.sections section_id with
  | none => .error .SectionNotFoundE
  | some _ =>
    let student_ids := (st.sectionRosterIndex section_id).getD []
    student_ids.mapM (fun sid =>
      match st.students sid with
      | some s => Except.ok s
      | none => Except.error SMError.KeyError)

/-! ### CSV import (`import_roster_from_csv`) -/

/-- Python whitespace for `str.strip()` (ASCII range). -/
def pyIsSpace (c : Char) : Bool :=
  c = ' ' || c = '\t' || c = '\n' || c = '\r' || c = '\x0b' || c = '\x0c'

/-- Python `str.strip()`: drop leading and trailing whitespace. -/
def pyStrip (s : String) : String :=
  String.mk (((s.data.dropWhile pyIsSpace).reverse.dropWhile pyIsSpace).reverse)

/-- Python `str.lower()` (ASCII case mapping, which covers the
repository's column names). -/
def pyLower (s : String) : String :=
  String.mk (s.data.map Char.toLower)

/-- The four required CSV columns. -/
def requiredFields : List String :=
  ["section_id", "section_name", "student_id", "student_name"]

/-- Normalised fieldnames: each header cell stripped and lower-cased
(`name.strip().lower()`). -/
def normalizeFields (header : List String) : List String :=
  header.map (fun s => pyLower (pyStrip s))

/-- Row-dict lookup, `dict(zip(fieldnames, row))[key]`: a later duplicate
column overwrites an earlier one, so the *last* matching pair wins;
`none` when the key is missing from the zipped pairs (Python would raise
there, or hand `.strip()` a `None` restval — both abort the call). -/
def rowGet (fieldnames : List String) (row : List String) (key : String) :
    Option String :=
  (((fieldnames.zip row).filter (fun p => p.1 = key)).getLast?).map (fun p => p.2)

/-- Import statistics: `{'students_added': _, 'sections_seen': _}`. -/
structure ImportStats where
  students_added : Nat
  sections_seen : Nat
deriving DecidableEq, Repr

/-- The row loop of `import_roster_from_csv`: for each row, strip the four
cells, auto-create the section (named from the row's `section_name`) when
missing, record the section id as seen, then `add_student`; a
`DuplicateStudentIdE` is swallowed and the row skipped, any other error
aborts the loop.  Returns the running counter and the seen-set. -/
def importRows (fieldnames : List String) (st : StoreState) (added : Nat)
    (seen : List String) :
    List (List String) → StoreState × Except SMError (Nat × List String)
  | [] => (st, .ok (added, seen))
  | row :: rest =>
    match rowGet fieldnames row "section_id", rowGet fieldnames row "section_name",
          rowGet fieldnames row "student_id", rowGet fieldnames row "student_name" with
    | some sec_id_c, some sec_name_c, some stu_id_c, some stu_name_c =>
      let sec_id := pyStrip sec_id_c
      let sec_name := pyStrip sec_name_c
      let stu_id := pyStrip stu_id_c
      let stu_name := pyStrip stu_name_c
      let st1 :=
        match st.sections sec_id with
        | some _ => st
        | none => (add_section st sec_id sec_name).1
      let seen1 := setAdd seen sec_id
      match add_student st1 stu_name sec_id (some stu_id) "" with
      | (st2, .ok _) => importRows fieldnames st2 (added + 1) seen1 rest
      | (st2, .error .DuplicateStudentIdE) => importRows fieldnames st2 added seen1 rest
      | (st2, .error e) => (st2, .error e)
    | _, _, _, _ => (st, .error .KeyError)

/-- `StudentManager.import_roster_from_csv`, on the parsed representation:
normalise the header, fail with `InvalidArgument` (Python `ValueError`)
before touching any row when a required column is missing, then run the
row loop and report `students_added` and the number of distinct sections
seen. -/
def import_roster_from_csv (st : StoreState) (header : List String)
    (rows : List (List String)) : StoreState × Except SMError ImportStats :=
  let fieldnames := normalizeFields header
  if requiredFields.all (fun f => f ∈ fieldnames) then
    match importRows fieldnames st 0 [] rows with
    | (st1, .ok (added, seen)) =>
        (st1, .ok { students_added := added, sections_seen := seen.length })
    | (st1, .error e) => (st1, .error e)
  else
    (st, .error .InvalidArgument)

/-! ### Roster tools (`classroom_tools.py`) -/

/-- `spin_wheel`: fetch the section roster (a store failure propagates —
there is no handler around `get_students_by_section`), return `none` when
the roster is empty, otherwise `random.choice`, modelled by an index into
the roster. -/
def spin_wheel (st : StoreState) (section_id : String) (choiceIdx : Nat) :
    Except SMError (Option Student) :=
  match get_students_by_section st section_id with
  | .error e => .error e
  | .ok students =>
    if students.isEmpty then .ok none
    else .ok (students.get? (choiceIdx % students.length))

/-- Consecutive slices `l[i : i+k]` for `i = 0, k, 2k, …` — the chunking
loop of `form_groups_by_size`.  (For `k ≥ 1` the first chunk
`x :: xs.take (k-1)` is exactly `(x :: xs).take k`; the `k = 0` case is
unreachable behind the `group_size < 1` guard.) -/
def chunkList {α : Type} (k : Nat) : List α → List (List α)
  | [] => []
  | x :: xs => (x :: xs.take (k - 1)) :: chunkList k (xs.drop (k - 1))
termination_by l => l.length
decreasing_by
  simp only [List.length_drop, List.length_cons]
  omega

/-- `form_groups_by_size`: reject `group_size < 1` with `InvalidArgument`
(Python `ValueError`); fetch the roster (store failures propagate);
return `[]` for an empty roster; otherwise shuffle — modelled by the
permutation function `shuffle` — and cut the shuffled list into
consecutive chunks of `group_size`. -/
def form_groups_by_size (st : StoreState) (section_id : String)
    (group_size : Int) (shuffle : List Student → List Student) :
    Except SMError (List (List Student)) :=
  if group_size < 1 then .error .InvalidArgument
  else
    match get_students_by_section st section_id with
    | .error e => .error e
    | .ok students =>
      if students.isEmpty then .ok []
      else .ok (chunkList group_size.toNat (shuffle students))

/-! ### Basic lemmas about the operations -/

@[simp] theorem upd_same {α : Type} (m : String → Option α) (k : String)
    (v : Option α) : upd m k v k = v := by
  simp [upd]

theorem upd_other {α : Type} (m : String → Option α) (k x : String)
    (v : Option α) (h : x ≠ k) : upd m k v x = m x := by
  simp [upd, h]

/-- A duplicate explicit id makes `add_student` fail before any mutation:
the returned state is the input state itself. -/
theorem add_student_dup (st : StoreState) (name sec id gid : String)
    (s : Student) (h : st.students id = some s) :
    add_student st name sec (some id) gid = (st, .error .DuplicateStudentIdE) := by
  simp [add_student, h]

/-! ### C2, C4, C5, C6, C7, C10 -/

/-- C2 (code bug evidence): the spec says `spin_wheel` and `create_groups`
swallow "section not found" into an empty result, and the functions' own
docstrings and the repository tests agree; but the code calls
`get_students_by_section` with no handler, so a non-existent section makes
both raise `SectionNotFoundE` instead. -/
theorem C2_nonexistent_section_raises :
    spin_wheel emptyStore "missing" 0 = .error .SectionNotFoundE ∧
    form_groups_by_size emptyStore "missing" 2 (fun l => l) =
      .error .SectionNotFoundE := by
  constructor <;> rfl

/-- C4: adding a student whose explicit id is already present fails with
`DuplicateStudentIdE`, and the store state returned is exactly the input
state — sections, students and index all unchanged. -/
theorem C4_duplicate_add_leaves_state (st : StoreState)
    (name sec id gid : String) (s : Student) (h : st.students id = some s) :
    add_student st name sec (some id) gid = (st, .error .DuplicateStudentIdE) :=
  add_student_dup st name sec id gid s h

/-- C4 witness. -/
theorem C4_duplicate_add_leaves_state_witness :
    add_student (add_student (add_section emptyStore "A" "Sec A").1
        "Alice" "A" (some "s1") "g").1 "Bob" "A" (some "s1") "g2" =
      ((add_student (add_section emptyStore "A" "Sec A").1
        "Alice" "A" (some "s1") "g").1, .error .DuplicateStudentIdE) :=
  C4_duplicate_add_leaves_state _ "Bob" "A" "s1" "g2"
    { name := "Alice", student_id := "s1", section_id := "A" } (by decide)

/-- C5: `get_students_by_section` fails with `SectionNotFoundE` exactly
when the section was never created; a created section whose bucket has no
members yields an empty list — the two cases are distinguishable. -/
theorem C5_missing_vs_empty_section (st : StoreState) (section_id : String) :
    (st.sections section_id = none →
      get_students_by_section st section_id = .error .SectionNotFoundE) ∧
    (∀ sec, st.sections section_id = some sec →
      (st.sectionRosterIndex section_id).getD [] = [] →
      get_students_by_section st section_id = .ok []) := by
  constructor
  · intro h
    simp [get_students_by_section, h]
  · intro sec hsec hidx
    simp only [get_students_by_section, hsec, hidx]
    rfl

/-- C5 witness. -/
theorem C5_missing_vs_empty_section_witness :
    get_students_by_section emptyStore "Z" = .error .SectionNotFoundE ∧
    get_students_by_section (add_section emptyStore "A" "Sec A").1 "A" =
      .ok [] :=
  ⟨(C5_missing_vs_empty_section emptyStore "Z").1 rfl,
   (C5_missing_vs_empty_section (add_section emptyStore "A" "Sec A").1 "A").2
      { section_id := "A", name := "Sec A" } (by decide) (by decide)⟩

/-- C6: a `group_size` below 1 is rejected with `InvalidArgument` before
the section is even looked up, so the failure is independent of the store
and of whether the section exists. -/
theorem C6_invalid_group_size (st : StoreState) (section_id : String)
    (group_size : Int) (shuffle : List Student → List Student)
    (hk : group_size < 1) :
    form_groups_by_size st section_id group_size shuffle =
      .error .InvalidArgument := by
  simp [form_groups_by_size, hk]

/-- C6 witness: `group_size = 0` on a section that does not exist. -/
theorem C6_invalid_group_size_witness :
    form_groups_by_size emptyStore "nowhere" 0 (fun l => l) =
      .error .InvalidArgument :=
  C6_invalid_group_size emptyStore "nowhere" 0 (fun l => l) (by decide)

/-- C7: adding a student with a fresh id to a not-yet-existing section
succeeds, auto-creates the section named after its own id, inserts the
student into the primary map, and puts the id in the new bucket. -/
theorem C7_add_student_autovivifies (st : StoreState) (name sec id gid : String)
    (hid : st.students id = none) (hsec : st.sections sec = none) :
    (add_student st name sec (some id) gid).2 =
      .ok { name := name, student_id := id, section_id := sec } ∧
    (add_student st name sec (some id) gid).1.sections sec =
      some { section_id := sec, name := sec } ∧
    (add_student st name sec (some id) gid).1.students id =
      some { name := name, student_id := id, section_id := sec } ∧
    (add_student st name sec (some id) gid).1.sectionRosterIndex sec =
      some [id] := by
  refine ⟨?_, ?_, ?_, ?_⟩ <;> simp [add_student, hid, hsec, add_section, setAdd]

/-- C7 witness. -/
theorem C7_add_student_autovivifies_witness :
    (add_student emptyStore "Alice" "NewSection" (some "a1") "g").2 =
      .ok { name := "Alice", student_id := "a1", section_id := "NewSection" } ∧
    (add_student emptyStore "Alice" "NewSection" (some "a1") "g").1.sections
        "NewSection" = some { section_id := "NewSection", name := "NewSection" } ∧
    (add_student emptyStore "Alice" "NewSection" (some "a1") "g").1.students
        "a1" = some { name := "Alice", student_id := "a1", section_id := "NewSection" } ∧
    (add_student emptyStore "Alice" "NewSection" (some "a1") "g").1.sectionRosterIndex
        "NewSection" = some ["a1"] :=
  C7_add_student_autovivifies emptyStore "Alice" "NewSection" "a1" "g" rfl rfl

/-- C10: when `update_student` gets both a new name and a non-existent
target section, the name is written into the store before the
`SectionNotFoundE` failure, and is not rolled back — the failing call
changes the visible state. -/
theorem C10_name_updated_before_section_error (st : StoreState)
    (id newName sec : String) (s : Student) (hs : st.students id = some s)
    (hne : sec ≠ s.section_id) (hsec : st.sections sec = none) :
    (update_student st id (some newName) (some sec)).2 =
      .error .SectionNotFoundE ∧
    (update_student st id (some newName) (some sec)).1.students id =
      some { s with name := newName } := by
  constructor <;> simp [update_student, hs, hne, hsec]

/-- C10 witness: "Alicia" is persisted although the move to "ZZ" fails. -/
theorem C10_name_updated_before_section_error_witness :
    (update_student (add_student (add_section emptyStore "A" "Sec A").1
        "Alice" "A" (some "s1") "g").1 "s1" (some "Alicia") (some "ZZ")).2 =
      .error .SectionNotFoundE ∧
    (update_student (add_student (add_section emptyStore "A" "Sec A").1
        "Alice" "A" (some "s1") "g").1 "s1" (some "Alicia") (some "ZZ")).1.students "s1" =
      some { name := "Alicia", student_id := "s1", section_id := "A" } :=
  C10_name_updated_before_section_error _ "s1" "Alicia" "ZZ"
    { name := "Alice", student_id := "s1", section_id := "A" }
    (by decide) (by decide) (by decide)

/-! ### Chunking lemmas and C3 -/

/-- Concatenating the chunks restores the original list. -/
theorem chunkList_flatten {α : Type} (k : Nat) (l : List α) :
    (chunkList k l).flatten = l := by
  induction l using chunkList.induct (k := k) with
  | case1 => simp [chunkList]
  | case2 x xs ih => simp [chunkList, ih]

/-- Chunking yields no chunk at all only for the empty list. -/
theorem chunkList_eq_nil_iff {α : Type} (k : Nat) (l : List α) :
    chunkList k l = [] ↔ l = [] := by
  cases l with
  | nil => simp [chunkList]
  | cons x xs => simp [chunkList]

/-- Number of chunks: the ceiling of `length / k` (for `k ≥ 1`). -/
theorem chunkList_length {α : Type} (k : Nat) (hk : 1 ≤ k) (l : List α) :
    (chunkList k l).length = (l.length + k - 1) / k := by
  induction l using chunkList.induct (k := k) with
  | case1 =>
      have h0 : (k - 1) / k = 0 := Nat.div_eq_of_lt (by omega)
      simp [chunkList, h0]
  | case2 x xs ih =>
      have hdrop : (xs.drop (k - 1)).length = xs.length + 1 - k := by
        simp only [List.length_drop]
        omega
      simp only [chunkList, List.length_cons, ih, hdrop]
      rcases Nat.lt_or_ge (xs.length + 1) k with hlt | hge
      · have h0 : xs.length + 1 - k = 0 := by omega
        rw [h0]
        have h2 : (0 + k - 1) / k = 0 := Nat.div_eq_of_lt (by omega)
        have h3 : (xs.length + 1 + k - 1) / k = 1 :=
          Nat.div_eq_of_lt_le (by omega) (by omega)
        rw [h2, h3]
      · have h1 : xs.length + 1 + k - 1 = xs.length + 1 - k + k - 1 + k := by
          omega
        rw [h1, Nat.add_div_right _ (by omega : 0 < k)]

/-- Every chunk is nonempty and no longer than `k` (for `k ≥ 1`). -/
theorem chunkList_mem_length {α : Type} (k : Nat) (hk : 1 ≤ k) (l : List α)
    (g : List α) (hg : g ∈ chunkList k l) :
    1 ≤ g.length ∧ g.length ≤ k := by
  induction l using chunkList.induct (k := k) with
  | case1 => simp [chunkList] at hg
  | case2 x xs ih =>
      simp only [chunkList, List.mem_cons] at hg
      rcases hg with hg | hg
      · subst hg
        constructor
        · simp
        · simp only [List.length_cons, List.length_take]
          omega
      · exact ih hg

/-- Every chunk except possibly the last has length exactly `k`. -/
theorem chunkList_dropLast_length {α : Type} (k : Nat) (hk : 1 ≤ k)
    (l : List α) (g : List α) (hg : g ∈ (chunkList k l).dropLast) :
    g.length = k := by
  induction l using chunkList.induct (k := k) with
  | case1 => simp [chunkList] at hg
  | case2 x xs ih =>
      simp only [chunkList] at hg
      rcases hrest : chunkList k (xs.drop (k - 1)) with _ | ⟨c, cs⟩
      · rw [hrest] at hg
        simp at hg
      · rw [hrest, List.dropLast_cons_of_ne_nil (by simp)] at hg
        rcases List.mem_cons.mp hg with hg | hg
        · subst hg
          have hdrop : xs.drop (k - 1) ≠ [] := by
            intro hnil
            rw [hnil] at hrest
            simp [chunkList] at hrest
          have hlen : k - 1 ≤ xs.length := by
            by_contra hlt
            exact hdrop (List.drop_eq_nil_of_le (by omega))
          simp only [List.length_cons, List.length_take]
          omega
        · rw [← hrest] at hg
          exact ih hg

/-- A list no longer than `k` forms a single chunk. -/
theorem chunkList_single {α : Type} (k : Nat) (l : List α) (hne : l ≠ [])
    (hlen : l.length ≤ k) : chunkList k l = [l] := by
  cases l with
  | nil => exact absurd rfl hne
  | cons x xs =>
      have htake : xs.take (k - 1) = xs :=
        List.take_of_length_le (by simp at hlen; omega)
      have hdrop : xs.drop (k - 1) = [] :=
        List.drop_eq_nil_of_le (by simp at hlen; omega)
      simp [chunkList, htake, hdrop]

/-- C3: over an existing section with a nonempty roster `r` and a valid
`group_size`, `form_groups_by_size` succeeds and returns the consecutive
chunks of the shuffled roster: exactly `⌈n / k⌉` groups, every group of
length in `[1, k]`, all groups before the last of length exactly `k`, the
concatenation of the groups equal to the shuffle (hence a duplicate-free
permutation of the roster), and a single all-member group when
`group_size` exceeds the roster length. -/
theorem C3_create_groups_partition (st : StoreState) (section_id : String)
    (group_size : Int) (shuffle : List Student → List Student)
    (r : List Student)
    (hr : get_students_by_section st section_id = .ok r)
    (hne : r ≠ [])
    (hk : 1 ≤ group_size)
    (hperm : (shuffle r).Perm r)
    (hnd : r.Nodup) :
    ∃ gs, form_groups_by_size st section_id group_size shuffle = .ok gs ∧
      gs.length = (r.length + group_size.toNat - 1) / group_size.toNat ∧
      gs.flatten = shuffle r ∧
      (∀ g ∈ gs, 1 ≤ g.length ∧ g.length ≤ group_size.toNat) ∧
      (∀ g ∈ gs.dropLast, g.length = group_size.toNat) ∧
      gs.flatten.Perm r ∧
      gs.flatten.Nodup ∧
      ((r.length : Int) < group_size → gs = [shuffle r]) := by
  have hk1 : 1 ≤ group_size.toNat := by omega
  have hklt : ¬ group_size < 1 := by omega
  have hshne : shuffle r ≠ [] := by
    intro hnil
    exact hne (List.Perm.eq_nil (hnil ▸ hperm).symm)
  have hshlen : (shuffle r).length = r.length := hperm.length_eq
  refine ⟨chunkList group_size.toNat (shuffle r), ?_, ?_, ?_, ?_, ?_, ?_, ?_, ?_⟩
  · simp only [form_groups_by_size, hr, if_neg hklt]
    simp [List.isEmpty_iff, hne]
  · rw [chunkList_length _ hk1, hshlen]
  · exact chunkList_flatten _ _
  · intro g hg
    exact chunkList_mem_length _ hk1 _ g hg
  · intro g hg
    exact chunkList_dropLast_length _ hk1 _ g hg
  · rw [chunkList_flatten]
    exact hperm
  · rw [chunkList_flatten]
    exact hperm.nodup_iff.mpr hnd
  · intro hbig
    exact chunkList_single _ _ hshne (by omega)

/-- C3 witness: section "sec1" with Alice, Bob, Charlie and
`group_size = 2` (the identity permutation as the shuffle). -/
theorem C3_create_groups_partition_witness :
    ∃ gs, form_groups_by_size
        (add_student (add_student (add_student
          (add_section emptyStore "sec1" "Section 1").1
          "Alice" "sec1" (some "s1") "g").1
          "Bob" "sec1" (some "s2") "g").1
          "Charlie" "sec1" (some "s3") "g").1
        "sec1" 2 (fun l => l) = .ok gs ∧
      gs.length = (([ { name := "Alice", student_id := "s1", section_id := "sec1" },
          { name := "Bob", student_id := "s2", section_id := "sec1" },
          { name := "Charlie", student_id := "s3", section_id := "sec1" } ] :
            List Student).length + (2 : Int).toNat - 1) / (2 : Int).toNat ∧
      gs.flatten = (fun l => l)
          [ { name := "Alice", student_id := "s1", section_id := "sec1" },
            { name := "Bob", student_id := "s2", section_id := "sec1" },
            { name := "Charlie", student_id := "s3", section_id := "sec1" } ] ∧
      (∀ g ∈ gs, 1 ≤ g.length ∧ g.length ≤ (2 : Int).toNat) ∧
      (∀ g ∈ gs.dropLast, g.length = (2 : Int).toNat) ∧
      gs.flatten.Perm
          [ { name := "Alice", student_id := "s1", section_id := "sec1" },
            { name := "Bob", student_id := "s2", section_id := "sec1" },
            { name := "Charlie", student_id := "s3", section_id := "sec1" } ] ∧
      gs.flatten.Nodup ∧
      ((([ { name := "Alice", student_id := "s1", section_id := "sec1" },
          { name := "Bob", student_id := "s2", section_id := "sec1" },
          { name := "Charlie", student_id := "s3", section_id := "sec1" } ] :
            List Student).length : Int) < 2 → gs = (fun l => l)
          [[ { name := "Alice", student_id := "s1", section_id := "sec1" },
             { name := "Bob", student_id := "s2", section_id := "sec1" },
             { name := "Charlie", student_id := "s3", section_id := "sec1" } ]]) :=
  C3_create_groups_partition _ "sec1" 2 (fun l => l)
    [ { name := "Alice", student_id := "s1", section_id := "sec1" },
      { name := "Bob", student_id := "s2", section_id := "sec1" },
      { name := "Charlie", student_id := "s3", section_id := "sec1" } ]
    (by rfl) (by decide) (by decide) (List.Perm.refl _) (by decide)

/-! ### C8: CSV header validation -/

/-- C8: a CSV whose normalised header lacks one of the four required
columns is rejected with `InvalidArgument` (Python `ValueError`) before
any data row is processed: the returned state is exactly the input
state. -/
theorem C8_missing_column_rejected (st : StoreState) (header : List String)
    (rows : List (List String)) (f : String) (hf : f ∈ requiredFields)
    (hmiss : f ∉ normalizeFields header) :
    import_roster_from_csv st header rows = (st, .error .InvalidArgument) := by
  have hall : requiredFields.all (fun g => g ∈ normalizeFields header) = false := by
    rw [List.all_eq_false]
    exact ⟨f, hf, by simpa using hmiss⟩
  simp [import_roster_from_csv, hall]

/-- C8 witness: header lacking `section_name` (and data rows that are
never reached). -/
theorem C8_missing_column_rejected_witness :
    import_roster_from_csv emptyStore ["section_id", "student_id", "student_name"]
        [["sec1", "s1", "Alice"]] = (emptyStore, .error .InvalidArgument) :=
  C8_missing_column_rejected emptyStore _ _ "section_name" (by decide) (by decide)

/-! ### C9: import statistics -/

/-- Domain agreement between the section map and the index: precisely the
states in which no bucket access inside `add_student` can hit a
`KeyError`.  It holds for every reachable store and is preserved by every
operation. -/
def SecIdxDom (st : StoreState) : Prop :=
  ∀ sid, (st.sections sid).isSome ↔ (st.sectionRosterIndex sid).isSome

/-- The stripped `section_id` cell of a row (the value the import loop
uses both for the seen-set and for section creation). -/
def rowSecId (fieldnames : List String) (row : List String) : String :=
  pyStrip ((rowGet fieldnames row "section_id").getD "")

/-- The stripped `student_id` cell of a row. -/
def rowStuId (fieldnames : List String) (row : List String) : String :=
  pyStrip ((rowGet fieldnames row "student_id").getD "")

theorem add_section_students (st : StoreState) (i n : String) :
    (add_section st i n).1.students = st.students := by
  unfold add_section
  cases st.sections i <;> rfl

theorem add_section_secdom (st : StoreState) (i n : String) (h : SecIdxDom st) :
    SecIdxDom (add_section st i n).1 := by
  intro sid
  unfold add_section
  cases hcase : st.sections i with
  | some sec =>
      by_cases hsid : sid = i
      · subst hsid
        simp only [upd_same]
        simp only [Option.isSome_some, true_iff]
        exact (h sid).mp (by simp [hcase])
      · simpa [upd, hsid] using h sid
  | none =>
      by_cases hsid : sid = i
      · subst hsid
        simp [upd]
      · simpa [upd, hsid] using h sid

/-- `add_section` preserves a section that already exists. -/
theorem add_section_sections_isSome (st : StoreState) (i n sid : String)
    (h : (st.sections sid).isSome) :
    ((add_section st i n).1.sections sid).isSome := by
  unfold add_section
  cases hcase : st.sections i with
  | some sec =>
      by_cases hsid : sid = i <;> simp [upd, hsid, h]
  | none =>
      by_cases hsid : sid = i <;> simp [upd, hsid, h]

/-- Adding a student under a fresh explicit id always succeeds on a
domain-consistent store, and its only effect on the primary student map
is the insertion of the new record. -/
theorem add_student_fresh (st : StoreState) (name sec id gid : String)
    (hdom : SecIdxDom st) (hid : st.students id = none) :
    ∃ st2, add_student st name sec (some id) gid =
        (st2, .ok { name := name, student_id := id, section_id := sec }) ∧
      st2.students = upd st.students id
        (some { name := name, student_id := id, section_id := sec }) ∧
      SecIdxDom st2 := by
  unfold add_student
  simp only [Option.getD_some, hid]
  cases hsec : st.sections sec with
  | some s0 =>
      have hbucket : (st.sectionRosterIndex sec).isSome := by
        rw [← hdom sec, hsec]
        rfl
      rcases Option.isSome_iff_exists.mp hbucket with ⟨b, hb⟩
      refine ⟨{ sections := st.sections,
                students := upd st.students id
                  (some { name := name, student_id := id, section_id := sec }),
                sectionRosterIndex :=
                  upd st.sectionRosterIndex sec (some (setAdd b id)) },
              by simp [hsec, hb], rfl, ?_⟩
      intro sid
      by_cases hsid : sid = sec
      · subst hsid
        simp [hsec, upd]
      · simpa [upd, hsid] using hdom sid
  | none =>
      refine ⟨{ sections := upd st.sections sec
                  (some { section_id := sec, name := sec }),
                students := upd st.students id
                  (some { name := name, student_id := id, section_id := sec }),
                sectionRosterIndex :=
                  upd (upd st.sectionRosterIndex sec (some []))
                    sec (some (setAdd [] id)) },
              by simp [hsec, add_section], rfl, ?_⟩
      intro sid
      by_cases hsid : sid = sec
      · subst hsid
        simp [upd]
      · simpa [upd, hsid] using hdom sid

/-- Masking a predicate at an element not occurring in the list does not
change the filtered list. -/
theorem filter_mask_not_mem (l : List String) (a : String) (p : String → Bool)
    (ha : a ∉ l) :
    l.filter (fun x => if x = a then false else p x) = l.filter p := by
  induction l with
  | nil => rfl
  | cons b bs ih =>
      have hba : b ≠ a := fun h => ha (h ▸ List.mem_cons_self b bs)
      have hbs : a ∉ bs := fun h => ha (List.mem_cons_of_mem _ h)
      rw [List.filter_cons, List.filter_cons, ih hbs]
      simp [hba]

/-- Masking a predicate at one element of a duplicate-free list that the
predicate accepts decreases the filtered length by exactly one. -/
theorem filter_mask_length (l : List String) (a : String) (p : String → Bool)
    (hnd : l.Nodup) (ha : a ∈ l) (hpa : p a = true) :
    (l.filter p).length =
      (l.filter (fun x => if x = a then false else p x)).length + 1 := by
  induction l with
  | nil => simp at ha
  | cons b bs ih =>
      rcases List.mem_cons.mp ha with hab | ha2
      · subst hab
        have hnb : a ∉ bs := (List.nodup_cons.mp hnd).1
        rw [List.filter_cons, List.filter_cons, filter_mask_not_mem bs a p hnb]
        simp [hpa]
      · have hba : b ≠ a := by
          intro h
          exact (List.nodup_cons.mp hnd).1 (h ▸ ha2)
        have hnd2 : bs.Nodup := (List.nodup_cons.mp hnd).2
        rw [List.filter_cons, List.filter_cons]
        simp only [hba, if_neg hba]
        cases hpb : p b with
        | true => simpa using ih hnd2 ha2
        | false => simpa using ih hnd2 ha2

/-- Length of the seen-set accumulator: starting from `seen`, folding
`setAdd` over a list adds one slot per distinct element not already
seen. -/
theorem foldl_setAdd_length (l : List String) (seen : List String) :
    (l.foldl setAdd seen).length =
      seen.length + (l.dedup.filter (fun x => x ∉ seen)).length := by
  induction l generalizing seen with
  | nil => simp
  | cons a as ih =>
      rw [List.foldl_cons, ih]
      by_cases hseen : a ∈ seen
      · have hsa : setAdd seen a = seen := by simp [setAdd, hseen]
        rw [hsa]
        by_cases hal : a ∈ as
        · rw [List.dedup_cons_of_mem hal]
        · rw [List.dedup_cons_of_not_mem hal, List.filter_cons]
          simp [hseen]
      · have hsa : setAdd seen a = seen ++ [a] := by simp [setAdd, hseen]
        have hmask : ∀ x : String, (decide (x ∉ seen ++ [a])) =
            (if x = a then false else decide (x ∉ seen)) := by
          intro x
          by_cases hxa : x = a
          · subst hxa
            simp
          · simp [hxa]
        rw [hsa]
        simp only [List.length_append, List.length_cons, List.length_nil]
        have hfilter : (as.dedup.filter (fun x => x ∉ seen ++ [a])) =
            (as.dedup.filter (fun x => if x = a then false else decide (x ∉ seen))) := by
          apply List.filter_congr
          intro x _
          exact hmask x
        rw [hfilter]
        by_cases hal : a ∈ as
        · rw [List.dedup_cons_of_mem hal]
          have hdrop := filter_mask_length as.dedup a (fun x => decide (x ∉ seen))
            (List.nodup_dedup as) (List.mem_dedup.mpr hal) (by simpa using hseen)
          have hbeta : (fun x => if x = a then false
                else (fun x => decide (x ∉ seen)) x) =
              (fun x => if x = a then false else decide (x ∉ seen)) := rfl
          rw [hbeta] at hdrop
          omega
        · rw [List.dedup_cons_of_not_mem hal, List.filter_cons]
          have hnotdedup : a ∉ as.dedup := fun h => hal (List.mem_dedup.mp h)
          rw [filter_mask_not_mem as.dedup a _ hnotdedup]
          simp only [hseen, decide_not]
          simp [hseen]
          omega

/-- A column present in the fieldnames of a row at least as long as the
header is found by the row-dict lookup. -/
theorem rowGet_isSome (fieldnames : List String) (row : List String)
    (f : String) (hf : f ∈ fieldnames)
    (hlen : fieldnames.length ≤ row.length) :
    (rowGet fieldnames row f).isSome := by
  have hzip : ∃ v, (f, v) ∈ fieldnames.zip row := by
    induction fieldnames generalizing row with
    | nil => simp at hf
    | cons g gs ih =>
        cases row with
        | nil => simp at hlen
        | cons r rs =>
            rcases List.mem_cons.mp hf with hfg | hfg
            · exact ⟨r, by simp [hfg]⟩
            · rcases ih rs hfg (by simpa using Nat.le_of_succ_le_succ hlen) with ⟨v, hv⟩
              exact ⟨v, List.mem_cons_of_mem _ hv⟩
  rcases hzip with ⟨v, hv⟩
  have hne : (fieldnames.zip row).filter (fun p => p.1 = f) ≠ [] := by
    intro hnil
    have := List.filter_eq_nil_iff.mp hnil (f, v) hv
    simp at this
  unfold rowGet
  rcases hlast : ((fieldnames.zip row).filter (fun p => p.1 = f)).getLast? with _ | p
  · exact absurd (List.getLast?_eq_none_iff.mp hlast) hne
  · simp [hlast]

/-- Count step, duplicate case: a leading id that is already present
contributes nothing to the distinct-fresh count. -/
theorem dedup_filter_cons_stale (a : String) (ids : List String)
    (p : String → Bool) (ha : p a = false) :
    ((a :: ids).dedup.filter p).length = (ids.dedup.filter p).length := by
  by_cases hal : a ∈ ids
  · rw [List.dedup_cons_of_mem hal]
  · rw [List.dedup_cons_of_not_mem hal, List.filter_cons]
    simp [ha]

/-- Count step, fresh case: a leading id absent from the student map
contributes exactly one, and the remaining rows are counted against the
map extended at that id. -/
theorem dedup_filter_cons_fresh (a : String) (ids : List String)
    (m : String → Option Student) (s : Student) (ha : m a = none) :
    ((a :: ids).dedup.filter (fun i => (m i).isNone)).length =
      1 + (ids.dedup.filter (fun i => ((upd m a (some s)) i).isNone)).length := by
  have hmask : (fun i => ((upd m a (some s)) i).isNone) =
      (fun i => if i = a then false else (m i).isNone) := by
    funext i
    by_cases hia : i = a <;> simp [upd, hia]
  rw [hmask]
  by_cases hal : a ∈ ids
  · rw [List.dedup_cons_of_mem hal]
    have := filter_mask_length ids.dedup a (fun i => (m i).isNone)
      (List.nodup_dedup ids) (List.mem_dedup.mpr hal) (by simp [ha])
    have hbeta : (fun x => if x = a then false
          else (fun i => (m i).isNone) x) =
        (fun i => if i = a then false else (m i).isNone) := rfl
    rw [hbeta] at this
    omega
  · rw [List.dedup_cons_of_not_mem hal, List.filter_cons,
      filter_mask_not_mem ids.dedup a _ (fun h => hal (List.mem_dedup.mp h))]
    simp [ha]
    omega

/-- Row loop of the CSV import: starting from any domain-consistent store,
the loop never fails; the counter grows by the number of distinct
incoming student ids that are absent from the initial store, and the
seen-set is the fold of the incoming section ids over the initial
seen-set. -/
theorem importRows_spec (fieldnames : List String)
    (hsec : "section_id" ∈ fieldnames) (hsecn : "section_name" ∈ fieldnames)
    (hstu : "student_id" ∈ fieldnames) (hstun : "student_name" ∈ fieldnames)
    (rows : List (List String)) :
    ∀ (st : StoreState) (added : Nat) (seen : List String),
    SecIdxDom st →
    (∀ row ∈ rows, fieldnames.length ≤ row.length) →
    ∃ st2, importRows fieldnames st added seen rows =
      (st2, .ok
        (added + ((rows.map (rowStuId fieldnames)).dedup.filter
            (fun i => (st.students i).isNone)).length,
         rows.foldl (fun acc r => setAdd acc (rowSecId fieldnames r)) seen)) := by
  induction rows with
  | nil =>
      intro st added seen _ _
      exact ⟨st, by simp [importRows]⟩
  | cons row rest ih =>
      intro st added seen hdom hlen
      obtain ⟨c1, h1⟩ := Option.isSome_iff_exists.mp
        (rowGet_isSome fieldnames row "section_id" hsec (hlen row (by simp)))
      obtain ⟨c2, h2⟩ := Option.isSome_iff_exists.mp
        (rowGet_isSome fieldnames row "section_name" hsecn (hlen row (by simp)))
      obtain ⟨c3, h3⟩ := Option.isSome_iff_exists.mp
        (rowGet_isSome fieldnames row "student_id" hstu (hlen row (by simp)))
      obtain ⟨c4, h4⟩ := Option.isSome_iff_exists.mp
        (rowGet_isSome fieldnames row "student_name" hstun (hlen row (by simp)))
      have hsecid : rowSecId fieldnames row = pyStrip c1 := by
        simp [rowSecId, h1]
      have hstuid : rowStuId fieldnames row = pyStrip c3 := by
        simp [rowStuId, h3]
      have hlenrest : ∀ r ∈ rest, fieldnames.length ≤ r.length :=
        fun r hr => hlen r (List.mem_cons_of_mem _ hr)
      -- the state after the ensure-section step
      set st1 : StoreState :=
        (match st.sections (pyStrip c1) with
          | some _ => st
          | none => (add_section st (pyStrip c1) (pyStrip c2)).1) with hst1
      have hst1students : st1.students = st.students := by
        rw [hst1]
        cases st.sections (pyStrip c1) with
        | some sec => rfl
        | none => exact add_section_students st _ _
      have hst1dom : SecIdxDom st1 := by
        rw [hst1]
        cases st.sections (pyStrip c1) with
        | some sec => exact hdom
        | none => exact add_section_secdom st _ _ hdom
      cases hfresh : st.students (pyStrip c3) with
      | none =>
          obtain ⟨st2, heq, hst2students, hst2dom⟩ :=
            add_student_fresh st1 (pyStrip c4) (pyStrip c1) (pyStrip c3) ""
              hst1dom (by rw [hst1students]; exact hfresh)
          obtain ⟨st3, hrec⟩ := ih st2 (added + 1)
            (setAdd seen (pyStrip c1)) hst2dom hlenrest
          refine ⟨st3, ?_⟩
          simp only [importRows, h1, h2, h3, h4, ← hst1, heq, hrec]
          rw [hst1students] at hst2students
          have hcount := dedup_filter_cons_fresh (pyStrip c3)
            (rest.map (rowStuId fieldnames)) st.students
            { name := pyStrip c4, student_id := pyStrip c3,
              section_id := pyStrip c1 } hfresh
          rw [hst2students]
          simp only [List.map_cons, hstuid, hsecid, List.foldl_cons]
          rw [hcount, Nat.add_assoc]
      | some s0 =>
          have hdup : add_student st1 (pyStrip c4) (pyStrip c1)
              (some (pyStrip c3)) "" = (st1, .error .DuplicateStudentIdE) :=
            add_student_dup st1 _ _ _ _ s0 (by rw [hst1students]; exact hfresh)
          obtain ⟨st3, hrec⟩ := ih st1 added
            (setAdd seen (pyStrip c1)) hst1dom hlenrest
          refine ⟨st3, ?_⟩
          simp only [importRows, h1, h2, h3, h4, ← hst1, hdup, hrec]
          rw [hst1students]
          have hcount := dedup_filter_cons_stale (pyStrip c3)
            (rest.map (rowStuId fieldnames))
            (fun i => (st.students i).isNone) (by simp [hfresh])
          simp only [List.map_cons, hstuid, hsecid, List.foldl_cons]
          rw [hcount]

/-- C9: on a well-formed CSV, the import returns `students_added` equal to
the number of distinct incoming student ids not already present in the
store (rows colliding with an existing student — including an earlier row
of the same import — are skipped silently and not counted) and
`sections_seen` equal to the number of distinct section ids among the
input rows, not the number of rows. -/
theorem C9_import_counts (st : StoreState) (header : List String)
    (rows : List (List String))
    (hdom : SecIdxDom st)
    (hhdr : requiredFields.all (fun f => f ∈ normalizeFields header) = true)
    (hrows : ∀ row ∈ rows, header.length ≤ row.length) :
    ∃ st2, import_roster_from_csv st header rows =
      (st2, .ok
        { students_added :=
            ((rows.map (rowStuId (normalizeFields header))).dedup.filter
              (fun i => (st.students i).isNone)).length
          sections_seen :=
            (rows.map (rowSecId (normalizeFields header))).dedup.length }) := by
  have hmem : ∀ f ∈ requiredFields, f ∈ normalizeFields header := by
    intro f hf
    simpa using List.all_eq_true.mp hhdr f hf
  have hlen2 : ∀ row ∈ rows, (normalizeFields header).length ≤ row.length := by
    intro r hr
    simpa [normalizeFields] using hrows r hr
  obtain ⟨st2, heq⟩ := importRows_spec (normalizeFields header)
    (hmem _ (by decide)) (hmem _ (by decide)) (hmem _ (by decide))
    (hmem _ (by decide)) rows st 0 [] hdom hlen2
  have hseen : (rows.foldl
        (fun acc r => setAdd acc (rowSecId (normalizeFields header) r)) []).length
      = (rows.map (rowSecId (normalizeFields header))).dedup.length := by
    rw [← List.foldl_map, foldl_setAdd_length]
    simp
  refine ⟨st2, ?_⟩
  simp only [import_roster_from_csv, hhdr, if_true, heq, hseen, Nat.zero_add]

/-- C9 witness: three rows over two sections with an in-file duplicate
student id, imported into the empty store. -/
theorem C9_import_counts_witness :
    ∃ st2, import_roster_from_csv emptyStore
        ["section_id", "section_name", "student_id", "student_name"]
        [["sec1", "Math 101", "s1", "Alice"],
         ["sec1", "Math 101", "s1", "Alice Duplicate"],
         ["sec2", "Eng", "s3", "Charlie"]] =
      (st2, .ok
        { students_added :=
            (([["sec1", "Math 101", "s1", "Alice"],
               ["sec1", "Math 101", "s1", "Alice Duplicate"],
               ["sec2", "Eng", "s3", "Charlie"]].map
                (rowStuId (normalizeFields
                  ["section_id", "section_name", "student_id", "student_name"]))).dedup.filter
              (fun i => (emptyStore.students i).isNone)).length
          sections_seen :=
            ([["sec1", "Math 101", "s1", "Alice"],
              ["sec1", "Math 101", "s1", "Alice Duplicate"],
              ["sec2", "Eng", "s3", "Charlie"]].map
                (rowSecId (normalizeFields
                  ["section_id", "section_name", "student_id", "student_name"]))).dedup.length }) :=
  C9_import_counts emptyStore _ _ (fun _ => Iff.rfl) (by decide) (by decide)

/-! ### C1: the index invariant over all reachable states -/

theorem mem_setAdd_self (l : List String) (x : String) : x ∈ setAdd l x := by
  by_cases h : x ∈ l <;> simp [setAdd, h]

theorem mem_setAdd_iff (l : List String) (x y : String) :
    y ∈ setAdd l x ↔ y ∈ l ∨ y = x := by
  by_cases h : x ∈ l
  · simp only [setAdd, if_pos h]
    constructor
    · exact fun hy => Or.inl hy
    · rintro (hy | hy)
      · exact hy
      · exact hy ▸ h
  · simp [setAdd, h]

theorem mem_setDiscard_iff (l : List String) (x y : String) :
    y ∈ setDiscard l x ↔ y ∈ l ∧ y ≠ x := by
  simp [setDiscard]

/-- The store's central invariant, from the spec's data-model section:
the section map and the index have the same domain, every student record
is keyed by its own id, every student's id is in the bucket of its
current section, and every id in any bucket belongs to a student whose
current section is that bucket's section (hence: in no other bucket). -/
structure Inv (st : StoreState) : Prop where
  dom : SecIdxDom st
  key : ∀ sid s, st.students sid = some s → s.student_id = sid
  inBucket : ∀ sid s, st.students sid = some s →
    ∃ b, st.sectionRosterIndex s.section_id = some b ∧ sid ∈ b
  bucketSound : ∀ sec b sid, st.sectionRosterIndex sec = some b → sid ∈ b →
    ∃ s, st.students sid = some s ∧ s.section_id = sec

theorem inv_empty : Inv emptyStore := by
  refine ⟨fun _ => Iff.rfl, ?_, ?_, ?_⟩
  · intro sid s h
    simp [emptyStore] at h
  · intro sid s h
    simp [emptyStore] at h
  · intro sec b sid h
    simp [emptyStore] at h

theorem inv_add_section (st : StoreState) (i n : String) (hinv : Inv st) :
    Inv (add_section st i n).1 := by
  unfold add_section
  cases hcase : st.sections i with
  | some sec0 =>
      refine ⟨?_, hinv.key, hinv.inBucket, hinv.bucketSound⟩
      intro sid
      by_cases hsid : sid = i
      · subst hsid
        simp only [upd_same, Option.isSome_some, true_iff]
        exact (hinv.dom sid).mp (by simp [hcase])
      · simpa [upd, hsid] using hinv.dom sid
  | none =>
      have hidx : st.sectionRosterIndex i = none := by
        rcases hi : st.sectionRosterIndex i with _ | b
        · rfl
        · exact absurd ((hinv.dom i).mpr (by simp [hi])) (by simp [hcase])
      refine ⟨?_, hinv.key, ?_, ?_⟩
      · intro sid
        by_cases hsid : sid = i
        · subst hsid
          simp [upd]
        · simpa [upd, hsid] using hinv.dom sid
      · intro sid s hs
        obtain ⟨b, hb, hmem⟩ := hinv.inBucket sid s hs
        have hne : s.section_id ≠ i := by
          intro h
          rw [h, hidx] at hb
          exact Option.noConfusion hb
        exact ⟨b, by simpa [upd, hne] using hb, hmem⟩
      · intro sec b sid hb hmem
        by_cases hsec2 : sec = i
        · subst hsec2
          simp only [upd_same, Option.some.injEq] at hb
          subst hb
          simp at hmem
        · exact hinv.bucketSound sec b sid (by simpa [upd, hsec2] using hb) hmem

/-- Inserting a fresh student record and extending the existing bucket of
its section keeps the invariant. -/
theorem inv_insert (st : StoreState) (name sec sid : String) (b : List String)
    (hinv : Inv st) (hid : st.students sid = none)
    (hb : st.sectionRosterIndex sec = some b) :
    Inv { sections := st.sections,
          students := upd st.students sid
            (some { name := name, student_id := sid, section_id := sec }),
          sectionRosterIndex :=
            upd st.sectionRosterIndex sec (some (setAdd b sid)) } := by
  refine ⟨?_, ?_, ?_, ?_⟩
  · intro x
    by_cases hx : x = sec
    · subst hx
      simp only [upd_same, Option.isSome_some, iff_true]
      exact (hinv.dom x).mpr (by simp [hb])
    · simpa [upd, hx] using hinv.dom x
  · intro x s hs
    dsimp only at hs
    by_cases hx : x = sid
    · subst hx
      rw [upd_same, Option.some.injEq] at hs
      rw [← hs]
    · rw [upd_other _ _ _ _ hx] at hs
      exact hinv.key x s hs
  · intro x s hs
    dsimp only at hs ⊢
    by_cases hx : x = sid
    · subst hx
      rw [upd_same, Option.some.injEq] at hs
      subst hs
      dsimp only
      exact ⟨_, by rw [upd_same], mem_setAdd_self b _⟩
    · rw [upd_other _ _ _ _ hx] at hs
      obtain ⟨b2, hb2, hmem⟩ := hinv.inBucket x s hs
      by_cases hsec2 : s.section_id = sec
      · rw [hsec2] at hb2 ⊢
        rw [hb, Option.some.injEq] at hb2
        subst hb2
        exact ⟨_, by rw [upd_same], (mem_setAdd_iff _ _ _).mpr (Or.inl hmem)⟩
      · exact ⟨b2, by simpa [upd, hsec2] using hb2, hmem⟩
  · intro sec2 b2 x hb2 hmem
    dsimp only at hb2 ⊢
    by_cases hsec2 : sec2 = sec
    · subst hsec2
      simp only [upd_same, Option.some.injEq] at hb2
      subst hb2
      rcases (mem_setAdd_iff b sid x).mp hmem with hx | hx
      · obtain ⟨s, hs, hsec⟩ := hinv.bucketSound sec2 b x hb hx
        have hxne : x ≠ sid := by
          intro h
          rw [h, hid] at hs
          exact Option.noConfusion hs
        exact ⟨s, by simpa [upd, hxne] using hs, hsec⟩
      · subst hx
        exact ⟨_, by rw [upd_same], rfl⟩
    · rw [upd_other _ _ _ _ hsec2] at hb2
      obtain ⟨s, hs, hsec⟩ := hinv.bucketSound sec2 b2 x hb2 hmem
      have hxne : x ≠ sid := by
        intro h
        rw [h, hid] at hs
        exact Option.noConfusion hs
      exact ⟨s, by simpa [upd, hxne] using hs, hsec⟩

theorem inv_add_student (st : StoreState) (name sec : String)
    (sid? : Option String) (gid : String) (hinv : Inv st) :
    Inv (add_student st name sec sid? gid).1 := by
  simp only [add_student]
  cases hdup : st.students (sid?.getD gid) with
  | some s => exact hinv
  | none =>
      cases hsec : st.sections sec with
      | some s0 =>
          have hb : (st.sectionRosterIndex sec).isSome :=
            (hinv.dom sec).mp (by simp [hsec])
          rcases Option.isSome_iff_exists.mp hb with ⟨b, hbeq⟩
          simp only [hbeq]
          exact inv_insert st name sec _ b hinv hdup hbeq
      | none =>
          have hinv1 := inv_add_section st sec sec hinv
          have hst1 : (add_section st sec sec).1 =
              { sections := upd st.sections sec (some (Section.mk sec sec)),
                students := st.students,
                sectionRosterIndex :=
                  upd st.sectionRosterIndex sec (some []) } := by
            simp [add_section, hsec]
          rw [hst1] at hinv1
          have h2 := inv_insert
            { sections := upd st.sections sec (some (Section.mk sec sec)),
              students := st.students,
              sectionRosterIndex := upd st.sectionRosterIndex sec (some []) }
            name sec (sid?.getD gid) [] hinv1 hdup (by simp)
          simpa [add_section, hsec, upd_same] using h2

theorem inv_remove_student (st : StoreState) (sid : String) (hinv : Inv st) :
    Inv (remove_student st sid).1 := by
  simp only [remove_student]
  cases hs : st.students sid with
  | none => exact hinv
  | some student =>
      obtain ⟨b, hb, hmemb⟩ := hinv.inBucket sid student hs
      simp only [hb]
      refine ⟨?_, ?_, ?_, ?_⟩
      · intro x
        dsimp only
        by_cases hx : x = student.section_id
        · subst hx
          simp only [upd_same, Option.isSome_some, iff_true]
          exact (hinv.dom _).mpr (by simp [hb])
        · simpa [upd, hx] using hinv.dom x
      · intro x s hs2
        dsimp only at hs2
        by_cases hx : x = sid
        · subst hx
          rw [upd_same] at hs2
          exact Option.noConfusion hs2
        · rw [upd_other _ _ _ _ hx] at hs2
          exact hinv.key x s hs2
      · intro x s hs2
        dsimp only at hs2 ⊢
        by_cases hx : x = sid
        · subst hx
          rw [upd_same] at hs2
          exact Option.noConfusion hs2
        · rw [upd_other _ _ _ _ hx] at hs2
          obtain ⟨b2, hb2, hmem2⟩ := hinv.inBucket x s hs2
          by_cases hsec2 : s.section_id = student.section_id
          · rw [hsec2] at hb2 ⊢
            rw [hb, Option.some.injEq] at hb2
            subst hb2
            exact ⟨_, by rw [upd_same],
              (mem_setDiscard_iff _ _ _).mpr ⟨hmem2, hx⟩⟩
          · exact ⟨b2, by simpa [upd, hsec2] using hb2, hmem2⟩
      · intro sec2 b2 x hb2 hmem2
        dsimp only at hb2 ⊢
        by_cases hsec2 : sec2 = student.section_id
        · subst hsec2
          rw [upd_same, Option.some.injEq] at hb2
          subst hb2
          obtain ⟨hxb, hxne⟩ := (mem_setDiscard_iff _ _ _).mp hmem2
          obtain ⟨s, hs3, hsec3⟩ := hinv.bucketSound _ b x hb hxb
          exact ⟨s, by simpa [upd, hxne] using hs3, hsec3⟩
        · rw [upd_other _ _ _ _ hsec2] at hb2
          obtain ⟨s, hs3, hsec3⟩ := hinv.bucketSound sec2 b2 x hb2 hmem2
          have hxne : x ≠ sid := by
            intro h
            subst h
            rw [hs, Option.some.injEq] at hs3
            exact hsec2 (by rw [hs3]; exact hsec3.symm)
          exact ⟨s, by simpa [upd, hxne] using hs3, hsec3⟩

/-- Replacing a student record by one with the same id and section (a
name update) keeps the invariant. -/
theorem inv_replace_same (st : StoreState) (sid : String) (s0 s1 : Student)
    (hinv : Inv st) (hs : st.students sid = some s0)
    (hkey : s1.student_id = s0.student_id) (hsec : s1.section_id = s0.section_id) :
    Inv { st with students := upd st.students sid (some s1) } := by
  refine ⟨?_, ?_, ?_, ?_⟩
  · intro x
    exact hinv.dom x
  · intro x s hs2
    dsimp only at hs2
    by_cases hx : x = sid
    · subst hx
      rw [upd_same, Option.some.injEq] at hs2
      rw [← hs2, hkey]
      exact hinv.key x s0 hs
    · rw [upd_other _ _ _ _ hx] at hs2
      exact hinv.key x s hs2
  · intro x s hs2
    dsimp only at hs2 ⊢
    by_cases hx : x = sid
    · subst hx
      rw [upd_same, Option.some.injEq] at hs2
      subst hs2
      rw [hsec]
      exact hinv.inBucket x s0 hs
    · rw [upd_other _ _ _ _ hx] at hs2
      exact hinv.inBucket x s hs2
  · intro sec2 b2 x hb2 hmem2
    dsimp only at hb2 ⊢
    obtain ⟨s, hs3, hsec3⟩ := hinv.bucketSound sec2 b2 x hb2 hmem2
    by_cases hx : x = sid
    · subst hx
      rw [hs, Option.some.injEq] at hs3
      subst hs3
      exact ⟨s1, by rw [upd_same], by rw [hsec]; exact hsec3⟩
    · exact ⟨s, by simpa [upd, hx] using hs3, hsec3⟩

/-- Moving a student between two existing buckets (discard from the old,
add to the new, rewrite the record's section) keeps the invariant. -/
theorem inv_move (st : StoreState) (sid sec : String) (s1 : Student)
    (oldB newB : List String) (hinv : Inv st)
    (hs : st.students sid = some s1)
    (hnew : sec ≠ s1.section_id)
    (hOld : st.sectionRosterIndex s1.section_id = some oldB)
    (hNew : st.sectionRosterIndex sec = some newB) :
    Inv { sections := st.sections,
          students := upd st.students sid (some { s1 with section_id := sec }),
          sectionRosterIndex :=
            upd (upd st.sectionRosterIndex s1.section_id
              (some (setDiscard oldB sid))) sec (some (setAdd newB sid)) } := by
  refine ⟨?_, ?_, ?_, ?_⟩
  · intro x
    dsimp only
    by_cases hx : x = sec
    · subst hx
      simp only [upd_same, Option.isSome_some, iff_true]
      exact (hinv.dom _).mpr (by simp [hNew])
    · rw [upd_other _ _ _ _ hx]
      by_cases hx2 : x = s1.section_id
      · subst hx2
        simp only [upd_same, Option.isSome_some, iff_true]
        exact (hinv.dom _).mpr (by simp [hOld])
      · rw [upd_other _ _ _ _ hx2]
        exact hinv.dom x
  · intro x s hs2
    dsimp only at hs2
    by_cases hx : x = sid
    · subst hx
      rw [upd_same, Option.some.injEq] at hs2
      rw [← hs2]
      exact hinv.key x s1 hs
    · rw [upd_other _ _ _ _ hx] at hs2
      exact hinv.key x s hs2
  · intro x s hs2
    dsimp only at hs2 ⊢
    by_cases hx : x = sid
    · subst hx
      rw [upd_same, Option.some.injEq] at hs2
      subst hs2
      exact ⟨_, by rw [upd_same], mem_setAdd_self newB x⟩
    · rw [upd_other _ _ _ _ hx] at hs2
      obtain ⟨b2, hb2, hmem2⟩ := hinv.inBucket x s hs2
      by_cases hsx : s.section_id = sec
      · rw [hsx] at hb2 ⊢
        rw [hNew, Option.some.injEq] at hb2
        subst hb2
        exact ⟨_, by rw [upd_same], (mem_setAdd_iff _ _ _).mpr (Or.inl hmem2)⟩
      · rw [upd_other _ _ _ _ hsx]
        by_cases hso : s.section_id = s1.section_id
        · rw [hso] at hb2 ⊢
          rw [hOld, Option.some.injEq] at hb2
          subst hb2
          exact ⟨_, by rw [upd_same], (mem_setDiscard_iff _ _ _).mpr ⟨hmem2, hx⟩⟩
        · rw [upd_other _ _ _ _ hso]
          exact ⟨b2, hb2, hmem2⟩
  · intro sec2 b2 x hb2 hmem2
    dsimp only at hb2 ⊢
    by_cases hsec2 : sec2 = sec
    · subst hsec2
      rw [upd_same, Option.some.injEq] at hb2
      subst hb2
      rcases (mem_setAdd_iff _ _ _).mp hmem2 with hx | hx
      · obtain ⟨s, hs3, hsec3⟩ := hinv.bucketSound _ newB x hNew hx
        have hxne : x ≠ sid := by
          intro h
          subst h
          rw [hs, Option.some.injEq] at hs3
          exact hnew (by rw [hs3]; exact hsec3.symm)
        exact ⟨s, by simpa [upd, hxne] using hs3, hsec3⟩
      · subst hx
        exact ⟨_, by rw [upd_same], rfl⟩
    · rw [upd_other _ _ _ _ hsec2] at hb2
      by_cases hold2 : sec2 = s1.section_id
      · subst hold2
        rw [upd_same, Option.some.injEq] at hb2
        subst hb2
        obtain ⟨hxb, hxne⟩ := (mem_setDiscard_iff _ _ _).mp hmem2
        obtain ⟨s, hs3, hsec3⟩ := hinv.bucketSound _ oldB x hOld hxb
        exact ⟨s, by simpa [upd, hxne] using hs3, hsec3⟩
      · rw [upd_other _ _ _ _ hold2] at hb2
        obtain ⟨s, hs3, hsec3⟩ := hinv.bucketSound sec2 b2 x hb2 hmem2
        have hxne : x ≠ sid := by
          intro h
          subst h
          rw [hs, Option.some.injEq] at hs3
          exact hold2 (by rw [hs3]; exact hsec3.symm)
        exact ⟨s, by simpa [upd, hxne] using hs3, hsec3⟩

theorem inv_update_student (st : StoreState) (sid : String)
    (name sec? : Option String) (hinv : Inv st) :
    Inv (update_student st sid name sec?).1 := by
  simp only [update_student]
  cases hs : st.students sid with
  | none => exact hinv
  | some s0 =>
      set s1 : Student :=
        (match name with
          | some n => { s0 with name := n }
          | none => s0) with hs1def
      have hkey1 : s1.student_id = s0.student_id := by
        rw [hs1def]
        cases name <;> rfl
      have hsec1 : s1.section_id = s0.section_id := by
        rw [hs1def]
        cases name <;> rfl
      have hinv1 : Inv { st with students := upd st.students sid (some s1) } :=
        inv_replace_same st sid s0 s1 hinv hs hkey1 hsec1
      cases sec? with
      | none => exact hinv1
      | some sec =>
          by_cases heq : sec = s1.section_id
          · simp only [if_pos heq]
            exact hinv1
          · simp only [if_neg heq]
            cases hsec : st.sections sec with
            | none => exact hinv1
            | some secrec =>
                have hstud1 : ({ st with
                    students := upd st.students sid (some s1) } :
                      StoreState).students sid = some s1 := by
                  dsimp only
                  rw [upd_same]
                obtain ⟨oldB, hOldB, hmemold⟩ := hinv1.inBucket sid s1 hstud1
                have hOldB2 : st.sectionRosterIndex s1.section_id = some oldB :=
                  hOldB
                simp only [hOldB2]
                have hNewSome : (st.sectionRosterIndex sec).isSome :=
                  (hinv.dom sec).mp (by simp [hsec])
                obtain ⟨newB, hNewB⟩ := Option.isSome_iff_exists.mp hNewSome
                have hscrut : upd st.sectionRosterIndex s1.section_id
                    (some (setDiscard oldB sid)) sec = some newB := by
                  rw [upd_other _ _ _ _ heq, hNewB]
                simp only [hscrut]
                exact inv_move { st with students := upd st.students sid (some s1) }
                  sid sec s1 oldB newB hinv1 hstud1 heq hOldB hNewB

theorem inv_importRows (fieldnames : List String) (rows : List (List String)) :
    ∀ (st : StoreState) (added : Nat) (seen : List String), Inv st →
    Inv (importRows fieldnames st added seen rows).1 := by
  induction rows with
  | nil =>
      intro st added seen hinv
      simpa [importRows] using hinv
  | cons row rest ih =>
      intro st added seen hinv
      cases h1 : rowGet fieldnames row "section_id" with
      | none =>
          simp only [importRows, h1]
          exact hinv
      | some c1 =>
      cases h2 : rowGet fieldnames row "section_name" with
      | none =>
          simp only [importRows, h1, h2]
          exact hinv
      | some c2 =>
      cases h3 : rowGet fieldnames row "student_id" with
      | none =>
          simp only [importRows, h1, h2, h3]
          exact hinv
      | some c3 =>
      cases h4 : rowGet fieldnames row "student_name" with
      | none =>
          simp only [importRows, h1, h2, h3, h4]
          exact hinv
      | some c4 =>
          simp only [importRows, h1, h2, h3, h4]
          have hinv1 : Inv (match st.sections (pyStrip c1) with
              | some _ => st
              | none => (add_section st (pyStrip c1) (pyStrip c2)).1) := by
            cases st.sections (pyStrip c1)
            · exact inv_add_section st _ _ hinv
            · exact hinv
          have hinv2 : Inv (add_student
              (match st.sections (pyStrip c1) with
                | some _ => st
                | none => (add_section st (pyStrip c1) (pyStrip c2)).1)
              (pyStrip c4) (pyStrip c1) (some (pyStrip c3)) "").1 :=
            inv_add_student _ _ _ _ _ hinv1
          cases hadd : add_student
              (match st.sections (pyStrip c1) with
                | some _ => st
                | none => (add_section st (pyStrip c1) (pyStrip c2)).1)
              (pyStrip c4) (pyStrip c1) (some (pyStrip c3)) "" with
          | mk st2 res =>
              rw [hadd] at hinv2
              dsimp only at hinv2
              cases res with
              | ok s =>
                  exact ih st2 _ _ hinv2
              | error e =>
                  cases e with
                  | DuplicateStudentIdE => exact ih st2 _ _ hinv2
                  | SectionNotFoundE => exact hinv2
                  | StudentNotFoundE => exact hinv2
                  | InvalidArgument => exact hinv2
                  | KeyError => exact hinv2

theorem inv_import_roster_from_csv (st : StoreState) (header : List String)
    (rows : List (List String)) (hinv : Inv st) :
    Inv (import_roster_from_csv st header rows).1 := by
  simp only [import_roster_from_csv]
  by_cases hall : requiredFields.all
      (fun f => f ∈ normalizeFields header) = true
  · simp only [hall, if_true]
    have h := inv_importRows (normalizeFields header) rows st 0 [] hinv
    cases hrows : importRows (normalizeFields header) st 0 [] rows with
    | mk st2 res =>
        rw [hrows] at h
        dsimp only at h
        cases res with
        | ok p => exact h
        | error e => exact h
  · simp only [hall, if_false]
    exact hinv

/-! The operations of the store, and states reachable from a fresh
`StudentManager()` by any sequence of them. -/

inductive StoreOp where
  | addSection (section_id name : String)
  | addStudent (name section_id : String) (student_id : Option String)
      (genId : String)
  | removeStudent (student_id : String)
  | updateStudent (student_id : String) (name section_id : Option String)
  | importCSV (header : List String) (rows : List (List String))

/-- The state an operation leaves behind (also when it reports an
error — partial mutations made before a raise are kept, as in Python). -/
def applyOp (st : StoreState) : StoreOp → StoreState
  | .addSection i n => (add_section st i n).1
  | .addStudent n sec sid gid => (add_student st n sec sid gid).1
  | .removeStudent sid => (remove_student st sid).1
  | .updateStudent sid n sec => (update_student st sid n sec).1
  | .importCSV header rows => (import_roster_from_csv st header rows).1

/-- The state reached from the fresh store by a sequence of operations. -/
def applyOps (ops : List StoreOp) : StoreState :=
  ops.foldl applyOp emptyStore

theorem inv_applyOp (st : StoreState) (op : StoreOp) (hinv : Inv st) :
    Inv (applyOp st op) := by
  cases op with
  | addSection i n => exact inv_add_section st i n hinv
  | addStudent n sec sid gid => exact inv_add_student st n sec sid gid hinv
  | removeStudent sid => exact inv_remove_student st sid hinv
  | updateStudent sid n sec => exact inv_update_student st sid n sec hinv
  | importCSV header rows => exact inv_import_roster_from_csv st header rows hinv

theorem inv_applyOps (ops : List StoreOp) : Inv (applyOps ops) := by
  have h : ∀ (st : StoreState), Inv st → Inv (ops.foldl applyOp st) := by
    induction ops with
    | nil => exact fun st h => h
    | cons op rest ih =>
        intro st h
        exact ih (applyOp st op) (inv_applyOp st op h)
  exact h emptyStore inv_empty

/-- C1: in every state reachable by any sequence of store operations,
every stored student's id equals its key in the primary map, is a member
of the index bucket of the student's current section, and is a member of
no other section's bucket. -/
theorem C1_index_invariant (ops : List StoreOp) (sid : String) (s : Student)
    (hs : (applyOps ops).students sid = some s) :
    s.student_id = sid ∧
    (∃ b, (applyOps ops).sectionRosterIndex s.section_id = some b ∧
      s.student_id ∈ b) ∧
    (∀ sec b, (applyOps ops).sectionRosterIndex sec = some b →
      s.student_id ∈ b → sec = s.section_id) := by
  have hinv := inv_applyOps ops
  have hkey := hinv.key sid s hs
  refine ⟨hkey, ?_, ?_⟩
  · obtain ⟨b, hb, hmem⟩ := hinv.inBucket sid s hs
    exact ⟨b, hb, hkey ▸ hmem⟩
  · intro sec b hb hmem
    obtain ⟨s2, hs2, hsec2⟩ := hinv.bucketSound sec b s.student_id hb hmem
    rw [hkey, hs, Option.some.injEq] at hs2
    rw [← hsec2, hs2]

/-- C1 witness: create sections A and B, add a student to A, move it to
B; its id is keyed correctly, sits in B's bucket and in no other. -/
theorem C1_index_invariant_witness :
    ({ name := "Alice", student_id := "s1", section_id := "B" } :
        Student).student_id = "s1" ∧
    (∃ b, (applyOps [StoreOp.addSection "A" "Sec A",
        StoreOp.addSection "B" "Sec B",
        StoreOp.addStudent "Alice" "A" (some "s1") "g",
        StoreOp.updateStudent "s1" none (some "B")]).sectionRosterIndex
        ({ name := "Alice", student_id := "s1", section_id := "B" } :
          Student).section_id = some b ∧
      ({ name := "Alice", student_id := "s1", section_id := "B" } :
        Student).student_id ∈ b) ∧
    (∀ sec b, (applyOps [StoreOp.addSection "A" "Sec A",
        StoreOp.addSection "B" "Sec B",
        StoreOp.addStudent "Alice" "A" (some "s1") "g",
        StoreOp.updateStudent "s1" none (some "B")]).sectionRosterIndex sec =
          some b →
      ({ name := "Alice", student_id := "s1", section_id := "B" } :
        Student).student_id ∈ b →
      sec = ({ name := "Alice", student_id := "s1", section_id := "B" } :
        Student).section_id) :=
  C1_index_invariant [StoreOp.addSection "A" "Sec A",
    StoreOp.addSection "B" "Sec B",
    StoreOp.addStudent "Alice" "A" (some "s1") "g",
    StoreOp.updateStudent "s1" none (some "B")] "s1"
    { name := "Alice", student_id := "s1", section_id := "B" } (by rfl)

end Classroom
